import Mathlib

/-!
Formal model of the analysis pipeline of the weather dashboard
(src/Weather_Forecasting_Analysis.py), over exact rational arithmetic.

The embedded pieces are the unit converter (lines 147-150), the trend
direction (line 185), the monthly aggregation and anomaly detection
(lines 277-285), the unguarded Prophet call (lines 327-331) and the
extreme-event classifier (lines 359-368).  Floating-point NaN propagation
of pandas and numpy is modelled with Option: a NaN cell is none, and every
comparison with a none is false, exactly as comparisons with NaN are.
-/

namespace Weather

/-- A calendar date as it appears in the daily weather table. -/
structure Date where
  year : Nat
  month : Nat
  day : Nat
deriving DecidableEq, Repr

/-- One row of the loaded weather table: date, city name and the average
temperature of that day in Celsius. -/
structure DailyRecord where
  date : Date
  city : String
  avg_temp_c : ℚ
deriving DecidableEq, Repr

/-- The temperature-unit selector of the sidebar. -/
inductive TempUnit
  | celsius
  | fahrenheit
deriving DecidableEq, Repr

/-- Unit conversion of the temperature column, lines 147-150 of the source:
under Fahrenheit the column is avg_temp_c * 9/5 + 32, under Celsius it is
the Celsius value unchanged. -/
def convert (u : TempUnit) (c : ℚ) : ℚ :=
  match u with
  | TempUnit.fahrenheit => c * 9 / 5 + 32
  | TempUnit.celsius => c

/-- Sort key of a date; for actual calendar dates (month 1-12, day 1-31) it
orders chronologically. -/
def dateKey (d : Date) : Nat :=
  (d.year * 100 + d.month) * 100 + d.day

/-- The sort_values of line 145: the selection sorted by date. -/
def sortByDate (s : List (Date × ℚ)) : List (Date × ℚ) :=
  List.insertionSort (fun p q => dateKey p.1 ≤ dateKey q.1) s

/-- The per-city selection of line 144: rows whose city matches, sorted by
date, keeping the date and the Celsius temperature. -/
def filteredFor (weather : List DailyRecord) (city : String) : List (Date × ℚ) :=
  sortByDate ((weather.filter (fun r => decide (r.city = city))).map
    (fun r => (r.date, r.avg_temp_c)))

/-- The converted temperature column joined to the dates, lines 147-150. -/
def convertSeries (u : TempUnit) (s : List (Date × ℚ)) : List (Date × ℚ) :=
  s.map (fun p => (p.1, convert u p.2))

/-- Arithmetic mean of a list of rationals, with the 0/0 = 0 convention of
rational division for the empty list; the pipeline only ever takes it on
nonempty groups and full 12-point windows. -/
def meanD (xs : List ℚ) : ℚ := xs.sum / (xs.length : ℚ)

/-- pandas Series.mean of a column: NaN (none) on an empty column. -/
def meanOpt (xs : List ℚ) : Option ℚ :=
  if xs = [] then none else some (meanD xs)

/-- Trend direction, line 185: strict comparison of the last temperature
against the first.  The none result models the IndexError that iloc raises
on an empty selection. -/
def trend_direction (ts : List ℚ) : Option String :=
  match ts.head?, ts.getLast? with
  | some first, some last =>
      some (if last > first then "increasing" else "decreasing")
  | _, _ => none

/-- The to_period of line 277: the (year, month) pair of a date. -/
def ymOf (d : Date) : Nat × Nat := (d.year, d.month)

/-- Chronological (lexicographic) order on (year, month) keys; groupby
emits its groups with keys sorted in this order. -/
def ymLe (a b : Nat × Nat) : Prop :=
  a.1 < b.1 ∨ (a.1 = b.1 ∧ a.2 ≤ b.2)

instance : DecidableRel ymLe := fun a b => by
  unfold ymLe; infer_instance

instance : IsTotal (Nat × Nat) ymLe :=
  ⟨by intro a b; unfold ymLe; omega⟩

instance : IsTrans (Nat × Nat) ymLe :=
  ⟨by intro a b c; unfold ymLe; omega⟩

/-- The groupby keys of line 278: the distinct months present in the
selection, in chronological order. -/
def monthlyKeys (s : List (Date × ℚ)) : List (Nat × Nat) :=
  List.insertionSort ymLe ((s.map (fun p => ymOf p.1)).dedup)

/-- All temperature values of the selection falling in a given month. -/
def monthTemps (s : List (Date × ℚ)) (k : Nat × Nat) : List ℚ :=
  (s.filter (fun p => decide (ymOf p.1 = k))).map (fun p => p.2)

/-- The monthly table of line 278: one row per month present, holding that
mean temperature of that month, rows in chronological month order. -/
def monthlyTable (s : List (Date × ℚ)) : List ((Nat × Nat) × ℚ) :=
  (monthlyKeys s).map (fun k => (k, meanD (monthTemps s k)))

/-- The monthly mean-temperature column, in chronological month order. -/
def monthlyMeans (s : List (Date × ℚ)) : List ℚ :=
  (monthlyTable s).map (fun kv => kv.2)

/-- The rolling(12).mean of line 281: the mean of the trailing 12-point
window ending at index i, NaN (none) for the first 11 indices where fewer
than 12 points are available. -/
def rollingMean12 (ms : List ℚ) : List (Option ℚ) :=
  (List.range ms.length).map (fun i =>
    if 11 ≤ i then some (meanD ((ms.take (i + 1)).drop (i - 11))) else none)

/-- The deviation column of line 282: temperature minus rolling mean, with
NaN propagation where the rolling mean is NaN. -/
def deviations (ms : List ℚ) : List (Option ℚ) :=
  List.zipWith (fun x r => Option.map (fun y => x - y) r) ms (rollingMean12 ms)

/-- The deviation samples that the std of line 284 actually aggregates:
pandas skips NaN cells. -/
def definedDevs (ms : List ℚ) : List ℚ :=
  (deviations ms).reduceOption

/-- Sample variance as pandas Series.std uses it (ddof = 1, NaN cells
skipped): none (NaN) with fewer than two samples.  The code compares
against 2 * std; we keep the variance and compare squares, which is exact
over the rationals, since abs d > 2 * sqrt v iff d ^ 2 > 4 * v for v >= 0. -/
def sampleVar (l : List ℚ) : Option ℚ :=
  if l.length < 2 then none
  else some ((l.map (fun d => (d - meanD l) ^ 2)).sum / ((l.length : ℚ) - 1))

/-- The anomaly test of line 285 at row i: np.abs(deviation) > threshold
with threshold = 2 * std of the deviation column; false whenever the
deviation or the std is NaN, as the float comparison is. -/
def anomalyFlag (ms : List ℚ) (i : Nat) : Bool :=
  match (deviations ms).getD i none, sampleVar (definedDevs ms) with
  | some d, some v => decide (4 * v < d ^ 2)
  | _, _ => false

/-- Indices of the monthly rows flagged as anomalies on line 285. -/
def anomalyIdx (ms : List ℚ) : List Nat :=
  (List.range ms.length).filter (anomalyFlag ms)

/-- The months flagged as anomalies for a city series under a unit. -/
def anomalousMonths (u : TempUnit) (s : List (Date × ℚ)) : List (Nat × Nat) :=
  (anomalyIdx (monthlyMeans (convertSeries u s))).map
    (fun i => (monthlyKeys (convertSeries u s)).getD i (0, 0))

/-- Floor of a nonnegative rational as a natural number; the percentile
computation only takes floors of nonnegative indices. -/
def ratFloorNat (h : ℚ) : Nat := h.num.toNat / h.den

/-- Linear interpolation of the sorted sample b at fractional index h, the
upper index clamped to the last position. -/
def interpAt (b : List ℚ) (h : ℚ) : ℚ :=
  b.getD (ratFloorNat h) 0 +
    (h - (ratFloorNat h : ℚ)) *
      (b.getD (min (ratFloorNat h + 1) (b.length - 1)) 0 - b.getD (ratFloorNat h) 0)

/-- np.percentile with its default linear interpolation between order
statistics: the sorted data interpolated at index q/100 * (n - 1); none on
an empty sample, where numpy has no value to return. -/
def percentile (q : ℚ) (xs : List ℚ) : Option ℚ :=
  if xs = [] then none
  else some (interpAt (List.insertionSort (· ≤ ·) xs) (q / 100 * ((xs.length : ℚ) - 1)))

/-- The heat threshold of line 359: the 95th percentile of the converted
temperature column. -/
def heat_threshold (s : List (Date × ℚ)) : Option ℚ :=
  percentile 95 (s.map (fun p => p.2))

/-- The cold threshold of line 360: the 5th percentile of the converted
temperature column. -/
def cold_threshold (s : List (Date × ℚ)) : Option ℚ :=
  percentile 5 (s.map (fun p => p.2))

/-- The heatwave rows of line 362: temperature strictly above the heat
threshold. -/
def heatwave_days (s : List (Date × ℚ)) : List (Date × ℚ) :=
  match heat_threshold s with
  | some h => s.filter (fun p => decide (h < p.2))
  | none => []

/-- The coldwave rows of line 363: temperature strictly below the cold
threshold. -/
def coldwave_days (s : List (Date × ℚ)) : List (Date × ℚ) :=
  match cold_threshold s with
  | some c => s.filter (fun p => decide (p.2 < c))
  | none => []

/-- The 13-point monthly series of the boundary scenario in the spec:
twelve points at 10.0 followed by one point at 100.0. -/
def seriesC2 : List ℚ := List.replicate 12 10 ++ [100]

/-- A two-row strictly increasing daily series used as a concrete input. -/
def seriesW1 : List (Date × ℚ) := [(⟨2020, 1, 1⟩, 1), (⟨2020, 1, 2⟩, 2)]

/-- A two-row constant daily series used as a concrete input. -/
def seriesW2 : List (Date × ℚ) := [(⟨2020, 1, 1⟩, 4), (⟨2020, 1, 2⟩, 4)]

/-- Modelled from the spec: the Forecast Service (the Prophet fit of lines
327-331, an external library whose internals are out of scope).  Per the
failure mode of the contract in the spec, the fit fails on an empty series
or one with fewer than two distinct dates. -/
def prophetFit (s : List (Date × ℚ)) : Except String Unit :=
  if ((s.map (fun p => p.1)).dedup).length < 2 then
    Except.error "ValueError: dataframe has less than 2 non-NaN rows"
  else Except.ok ()

/-- Outputs of one dashboard run for one selection. -/
structure RunOutputs where
  kpiMean : Option ℚ
  trend : String
  anomalyCount : Nat
  heatwaveCount : Nat
  coldwaveCount : Nat
deriving DecidableEq, Repr

/-- One top-to-bottom run of the script body for a selection, stage by
stage in source order: KPIs, the trend line 185 (which indexes iloc 0 and
iloc -1 and therefore raises on an empty selection), anomaly detection,
the unguarded Prophet fit of line 328, extreme events.  The source has no
try or except anywhere, so an Except.error models an uncaught exception
aborting the run. -/
def scriptRun (weather : List DailyRecord) (city : String) (u : TempUnit) :
    Except String RunOutputs :=
  let f := convertSeries u (filteredFor weather city)
  match trend_direction (f.map (fun p => p.2)) with
  | none => Except.error "IndexError: single positional indexer is out-of-bounds"
  | some tr =>
    match prophetFit f with
    | Except.error e => Except.error e
    | Except.ok _ =>
        Except.ok ⟨meanOpt (f.map (fun p => p.2)), tr,
          (anomalyIdx (monthlyMeans f)).length,
          (heatwave_days f).length, (coldwave_days f).length⟩

/-! Shared lemmas about the embedded pipeline. -/

set_option maxRecDepth 20000

theorem length_rollingMean12 (ms : List ℚ) : (rollingMean12 ms).length = ms.length := by
  unfold rollingMean12
  simp

theorem rollingMean12_getD (ms : List ℚ) (i : Nat) :
    (rollingMean12 ms).getD i none =
      if 11 ≤ i ∧ i < ms.length then
        some (meanD ((ms.take (i + 1)).drop (i - 11))) else none := by
  unfold rollingMean12
  rw [List.getD_eq_getElem?_getD, List.getElem?_map]
  rcases lt_or_ge i ms.length with h | h
  · rw [List.getElem?_range h]
    by_cases h11 : 11 ≤ i
    · simp [h11, h]
    · simp [h11]
  · rw [List.getElem?_eq_none (by simpa using h),
      if_neg (fun hc => absurd hc.2 (not_lt.mpr h))]
    rfl

theorem deviations_getD (ms : List ℚ) (i : Nat) :
    (deviations ms).getD i none =
      if 11 ≤ i ∧ i < ms.length then
        some (ms.getD i 0 - meanD ((ms.take (i + 1)).drop (i - 11))) else none := by
  unfold deviations
  rw [List.getD_eq_getElem?_getD, List.getElem?_zipWith]
  rcases lt_or_ge i ms.length with h | h
  · have hr : i < (rollingMean12 ms).length := by rw [length_rollingMean12]; exact h
    rw [List.getElem?_eq_getElem h, List.getElem?_eq_getElem hr]
    have hget : (rollingMean12 ms)[i] = (rollingMean12 ms).getD i none :=
      (List.getD_eq_getElem _ _ hr).symm
    rw [show (rollingMean12 ms)[i] = (rollingMean12 ms).getD i none from hget,
      rollingMean12_getD]
    by_cases h11 : 11 ≤ i
    · rw [if_pos ⟨h11, h⟩, if_pos ⟨h11, h⟩]
      simp [List.getD_eq_getElem?_getD, List.getElem?_eq_getElem h]
    · rw [if_neg (fun hc => h11 hc.1), if_neg (fun hc => h11 hc.1)]
      rfl
  · rw [List.getElem?_eq_none h,
      if_neg (fun hc => absurd hc.2 (not_lt.mpr h))]
    rfl

theorem definedDevs_nil_of_short {ms : List ℚ} (h : ms.length < 12) :
    definedDevs ms = [] := by
  unfold definedDevs
  rw [show (deviations ms).reduceOption = List.filterMap id (deviations ms) from rfl,
    List.filterMap_eq_nil_iff]
  intro x hx
  rcases List.mem_iff_getElem.mp hx with ⟨i, hi, hix⟩
  have hlen : (deviations ms).length ≤ ms.length := by
    unfold deviations
    rw [List.length_zipWith, length_rollingMean12]
    omega
  have hget : (deviations ms).getD i none = x := by
    rw [List.getD_eq_getElem _ _ hi]; exact hix
  rw [deviations_getD, if_neg (fun hc => by omega)] at hget
  exact hget.symm

theorem anomalyIdx_nil_of_short {ms : List ℚ} (h : ms.length < 12) :
    anomalyIdx ms = [] := by
  unfold anomalyIdx
  rw [List.filter_eq_nil_iff]
  intro i hi
  have hid : (deviations ms).getD i none = none := by
    rw [deviations_getD, if_neg (fun hc => by omega)]
  cases hvar : sampleVar (definedDevs ms) with
  | none =>
    unfold anomalyFlag
    rw [hid, hvar]
    exact Bool.false_ne_true
  | some v =>
    unfold anomalyFlag
    rw [hid, hvar]
    exact Bool.false_ne_true

theorem sampleVar_nonneg {l : List ℚ} {v : ℚ} (h : sampleVar l = some v) : 0 ≤ v := by
  unfold sampleVar at h
  by_cases hl : l.length < 2
  · rw [if_pos hl] at h
    exact absurd h (by simp)
  · rw [if_neg hl] at h
    have hv : (l.map (fun d => (d - meanD l) ^ 2)).sum / ((l.length : ℚ) - 1) = v :=
      Option.some.inj h
    have hsum : 0 ≤ (l.map (fun d => (d - meanD l) ^ 2)).sum := by
      apply List.sum_nonneg
      intro x hx
      rcases List.mem_map.mp hx with ⟨d, _, rfl⟩
      exact sq_nonneg _
    have hden : (0:ℚ) ≤ (l.length : ℚ) - 1 := by
      have : 2 ≤ l.length := not_lt.mp hl
      have : (2:ℚ) ≤ (l.length : ℚ) := by exact_mod_cast this
      linarith
    rw [← hv]
    exact div_nonneg hsum hden

theorem abs_lt_two_sqrt_iff (d v : ℚ) (hv : 0 ≤ v) :
    2 * Real.sqrt (v : ℝ) < |(d : ℝ)| ↔ 4 * v < d ^ 2 := by
  have h0 : (0:ℝ) ≤ 2 * Real.sqrt (v : ℝ) := by positivity
  have h1 : (0:ℝ) ≤ |(d : ℝ)| := abs_nonneg _
  rw [mul_self_lt_mul_self_iff h0 h1]
  have hs : Real.sqrt (v : ℝ) * Real.sqrt (v : ℝ) = (v : ℝ) :=
    Real.mul_self_sqrt (by exact_mod_cast hv)
  have hleft : 2 * Real.sqrt (v : ℝ) * (2 * Real.sqrt (v : ℝ)) = 4 * (v : ℝ) := by
    rw [show (2:ℝ) * Real.sqrt (v : ℝ) * (2 * Real.sqrt (v : ℝ))
        = 4 * (Real.sqrt (v : ℝ) * Real.sqrt (v : ℝ)) by ring, hs]
  have hright : |(d : ℝ)| * |(d : ℝ)| = (d : ℝ) ^ 2 := by
    rw [abs_mul_abs_self]; ring
  rw [hleft, hright]
  constructor
  · intro hlt
    exact_mod_cast hlt
  · intro hlt
    exact_mod_cast hlt

theorem length_monthlyMeans (s : List (Date × ℚ)) :
    (monthlyMeans s).length = (monthlyKeys s).length := by
  unfold monthlyMeans monthlyTable
  simp

theorem monthlyKeys_convert (u : TempUnit) (s : List (Date × ℚ)) :
    monthlyKeys (convertSeries u s) = monthlyKeys s := by
  unfold monthlyKeys convertSeries
  rw [List.map_map]
  rfl

/-! Claim theorems. -/

/-- Claim C9: the unit converter is the identity on the Celsius selection
and the affine map c * 9/5 + 32 on the Fahrenheit selection; it is a pure
total function of the value and the unit. -/
theorem C9_unit_converter :
    (∀ c : ℚ, convert TempUnit.celsius c = c) ∧
    (∀ c : ℚ, convert TempUnit.fahrenheit c = c * 9 / 5 + 32) :=
  ⟨fun _ => rfl, fun _ => rfl⟩

/-- Claim C6: on a nonempty series the reported trend direction is
increasing exactly when the last value is strictly greater than the first,
and decreasing otherwise; in particular a tie is reported as decreasing. -/
theorem C6_trend_direction (ts : List ℚ) (h : ts ≠ []) :
    trend_direction ts =
      some (if ts.head h < ts.getLast h then "increasing" else "decreasing") ∧
    (ts.getLast h = ts.head h → trend_direction ts = some "decreasing") := by
  constructor
  · unfold trend_direction
    rw [List.head?_eq_head h, List.getLast?_eq_getLast ts h]
  · intro he
    unfold trend_direction
    rw [List.head?_eq_head h, List.getLast?_eq_getLast ts h, he]
    simp

/-- Witness for C6 at a concrete two-point series with a tie. -/
theorem C6_trend_direction_witness :
    ([(7:ℚ), 7] ≠ ([] : List ℚ)) ∧
    trend_direction [(7:ℚ), 7] = some "decreasing" :=
  ⟨by simp, (C6_trend_direction [(7:ℚ), 7] (by simp)).2 (by with_unfolding_all rfl)⟩

/-- Claim C2 counterexample: on the 13-point series with twelve points at
10.0 and a last point at 100.0 the code flags no anomaly at all, and the
sample variance of the deviation column is 27225/8, not 0: there are two
defined deviation samples, not one. -/
theorem C2_counterexample :
    anomalyIdx seriesC2 = [] ∧
    sampleVar (definedDevs seriesC2) = some (27225 / 8) := by
  exact ⟨by with_unfolding_all rfl, by with_unfolding_all rfl⟩

/-- Claim C2 as amended: the rolling mean at the 13th point is 17.5 and its
deviation is 82.5, but the deviation column has two defined samples, 0 and
82.5, whose sample variance is 27225/8; the threshold 2 * std is about
116.7, which exceeds 82.5, so the point is not flagged and the series has
no anomalies. -/
theorem C2_amended :
    (rollingMean12 seriesC2).getD 12 none = some (35 / 2) ∧
    (deviations seriesC2).getD 12 none = some (165 / 2) ∧
    definedDevs seriesC2 = [0, 165 / 2] ∧
    sampleVar (definedDevs seriesC2) = some (27225 / 8) ∧
    anomalyFlag seriesC2 12 = false ∧
    anomalyIdx seriesC2 = [] := by
  refine ⟨?_, ?_, ?_, ?_, ?_, ?_⟩
  · with_unfolding_all rfl
  · with_unfolding_all rfl
  · with_unfolding_all rfl
  · with_unfolding_all rfl
  · with_unfolding_all rfl
  · with_unfolding_all rfl

/-- Claim C3: the code does not degrade gracefully.  On a selection with
zero records the script run aborts with the IndexError that line 185
raises on an empty series, and on a selection with a single record the
unguarded Prophet fit of line 328 fails and its error propagates out of
the run; no stage catches either failure. -/
theorem C3_crash_paths :
    scriptRun [] "Tokyo" TempUnit.celsius =
      Except.error "IndexError: single positional indexer is out-of-bounds" ∧
    scriptRun [⟨⟨2020, 1, 1⟩, "Tokyo", 10⟩] "Tokyo" TempUnit.celsius =
      Except.error "ValueError: dataframe has less than 2 non-NaN rows" :=
  ⟨by with_unfolding_all rfl, by with_unfolding_all rfl⟩

/-- Claim C5: a series spanning fewer than 12 distinct calendar months
yields the empty anomaly set, as a normal result of the same code path. -/
theorem C5_under_12_months (u : TempUnit) (s : List (Date × ℚ))
    (h : (monthlyKeys s).length < 12) :
    anomalousMonths u s = [] ∧
    anomalyIdx (monthlyMeans (convertSeries u s)) = [] := by
  have hlen : (monthlyMeans (convertSeries u s)).length < 12 := by
    rw [length_monthlyMeans, monthlyKeys_convert]
    exact h
  have hidx := anomalyIdx_nil_of_short hlen
  constructor
  · unfold anomalousMonths
    rw [hidx]
    rfl
  · exact hidx

/-- Witness for C5 at a one-record series. -/
theorem C5_under_12_months_witness :
    (monthlyKeys [(⟨2020, 1, 1⟩, (10:ℚ))]).length < 12 ∧
    anomalousMonths TempUnit.celsius [(⟨2020, 1, 1⟩, (10:ℚ))] = [] :=
  ⟨by with_unfolding_all decide,
    (C5_under_12_months TempUnit.celsius [(⟨2020, 1, 1⟩, (10:ℚ))]
      (by with_unfolding_all decide)).1⟩

/-- Claim C1: for every monthly series the rolling mean at index i is the
mean of the trailing 12-point window of indices i-11 through i when i is
at least 11 and undefined otherwise, the deviation is the value minus the
rolling mean where defined, and a point is flagged as an anomaly exactly
when its deviation is defined, the sample standard deviation of the
defined deviations is defined, and the absolute deviation strictly exceeds
twice that standard deviation. -/
theorem C1_anomaly_detector (ms : List ℚ) :
    ((rollingMean12 ms).length = ms.length ∧
      ∀ i, i < ms.length →
        (rollingMean12 ms).getD i none =
          if 11 ≤ i then some (meanD ((ms.take (i + 1)).drop (i - 11))) else none) ∧
    (∀ i, 11 ≤ i → i < ms.length → ((ms.take (i + 1)).drop (i - 11)).length = 12) ∧
    (∀ i, i < ms.length →
      (deviations ms).getD i none =
        Option.map (fun r => ms.getD i 0 - r) ((rollingMean12 ms).getD i none)) ∧
    (∀ i, anomalyFlag ms i = true ↔
      ∃ d v, (deviations ms).getD i none = some d ∧
        sampleVar (definedDevs ms) = some v ∧
        2 * Real.sqrt (v : ℝ) < |(d : ℝ)|) := by
  refine ⟨⟨length_rollingMean12 ms, ?_⟩, ?_, ?_, ?_⟩
  · intro i hi
    rw [rollingMean12_getD]
    by_cases h11 : 11 ≤ i
    · rw [if_pos ⟨h11, hi⟩, if_pos h11]
    · rw [if_neg (fun hc => h11 hc.1), if_neg h11]
  · intro i h11 hi
    rw [List.length_drop, List.length_take]
    omega
  · intro i hi
    rw [deviations_getD, rollingMean12_getD]
    by_cases h11 : 11 ≤ i
    · rw [if_pos ⟨h11, hi⟩, if_pos ⟨h11, hi⟩]
      rfl
    · rw [if_neg (fun hc => h11 hc.1), if_neg (fun hc => h11 hc.1)]
      rfl
  · intro i
    unfold anomalyFlag
    cases hdev : (deviations ms).getD i none with
    | none => simp [hdev]
    | some d =>
      cases hvar : sampleVar (definedDevs ms) with
      | none => simp [hvar]
      | some v =>
        have hv : 0 ≤ v := sampleVar_nonneg hvar
        simp only [decide_eq_true_iff, Option.some.injEq]
        constructor
        · intro hlt
          exact ⟨d, v, rfl, rfl, (abs_lt_two_sqrt_iff d v hv).mpr hlt⟩
        · intro hex
          rcases hex with ⟨d2, v2, hd2, hv2, hlt⟩
          rw [← hd2, ← hv2] at hlt
          exact (abs_lt_two_sqrt_iff d v hv).mp hlt

/-- Witness for C1: the rolling-window clauses applied to the concrete
13-point series at index 12. -/
theorem C1_anomaly_detector_witness :
    12 < seriesC2.length ∧
    (rollingMean12 seriesC2).getD 12 none =
      (if 11 ≤ 12 then some (meanD ((seriesC2.take (12 + 1)).drop (12 - 11))) else none) :=
  ⟨by with_unfolding_all decide,
    (C1_anomaly_detector seriesC2).1.2 12 (by with_unfolding_all decide)⟩

/-- Claim C8: for every single-city series the monthly aggregation yields
a chronologically ordered table with pairwise distinct month keys, exactly
the distinct calendar months present in the series, each carrying the
equal-weight arithmetic mean of the temperatures of that month; months
with no data contribute no row. -/
theorem C8_monthly_aggregator (s : List (Date × ℚ)) :
    List.Sorted ymLe (monthlyKeys s) ∧
    (monthlyKeys s).Nodup ∧
    (∀ k, k ∈ monthlyKeys s ↔ ∃ p ∈ s, ymOf p.1 = k) ∧
    (monthlyTable s).map (fun kv => kv.1) = monthlyKeys s ∧
    (∀ kv ∈ monthlyTable s,
      kv.2 = (monthTemps s kv.1).sum / ((monthTemps s kv.1).length : ℚ) ∧
      monthTemps s kv.1 ≠ []) := by
  have hmem : ∀ k, k ∈ monthlyKeys s ↔ ∃ p ∈ s, ymOf p.1 = k := by
    intro k
    unfold monthlyKeys
    rw [List.mem_insertionSort, List.mem_dedup, List.mem_map]
  refine ⟨List.sorted_insertionSort ymLe _,
    ((List.perm_insertionSort ymLe _).nodup_iff).mpr (List.nodup_dedup _),
    hmem, ?_, ?_⟩
  · unfold monthlyTable
    rw [List.map_map]
    exact List.map_id _
  · intro kv hkv
    unfold monthlyTable at hkv
    rcases List.mem_map.mp hkv with ⟨k, hk, rfl⟩
    refine ⟨rfl, ?_⟩
    rcases (hmem k).mp hk with ⟨p, hp, hpk⟩
    have hpm : p.2 ∈ monthTemps s k := by
      unfold monthTemps
      exact List.mem_map.mpr ⟨p, List.mem_filter.mpr ⟨hp, by simp [hpk]⟩, rfl⟩
    exact List.ne_nil_of_mem hpm

/-- Witness for C8 at a two-record one-month series. -/
theorem C8_monthly_aggregator_witness :
    (((2020, 1), (15:ℚ)) ∈ monthlyTable [(⟨2020, 1, 1⟩, (10:ℚ)), (⟨2020, 1, 15⟩, 20)]) ∧
    ((((2020, 1), (15:ℚ)).2 =
        (monthTemps [(⟨2020, 1, 1⟩, (10:ℚ)), (⟨2020, 1, 15⟩, 20)] ((2020, 1), (15:ℚ)).1).sum /
          ((monthTemps [(⟨2020, 1, 1⟩, (10:ℚ)), (⟨2020, 1, 15⟩, 20)] ((2020, 1), (15:ℚ)).1).length : ℚ)) ∧
      monthTemps [(⟨2020, 1, 1⟩, (10:ℚ)), (⟨2020, 1, 15⟩, 20)] ((2020, 1), (15:ℚ)).1 ≠ []) :=
  ⟨by with_unfolding_all decide,
    (C8_monthly_aggregator [(⟨2020, 1, 1⟩, (10:ℚ)), (⟨2020, 1, 15⟩, 20)]).2.2.2.2
      (((2020, 1), (15:ℚ))) (by with_unfolding_all decide)⟩

/-! Lemmas about the percentile interpolation. -/

theorem ratFloorNat_le {h : ℚ} (hh : 0 ≤ h) : (ratFloorNat h : ℚ) ≤ h := by
  have hden : (0:ℚ) < (h.den : ℚ) := by exact_mod_cast h.den_pos
  have hnum : ((h.num.toNat : ℕ) : ℚ) = (h.num : ℚ) := by
    exact_mod_cast congrArg (fun z : ℤ => (z : ℚ))
      (Int.toNat_of_nonneg (Rat.num_nonneg.mpr hh))
  conv_rhs => rw [← Rat.num_div_den h]
  rw [le_div_iff₀ hden, ← hnum]
  have hnat : (h.num.toNat / h.den) * h.den ≤ h.num.toNat := Nat.div_mul_le_self _ _
  unfold ratFloorNat
  exact_mod_cast hnat

theorem lt_ratFloorNat_add_one {h : ℚ} (hh : 0 ≤ h) : h < (ratFloorNat h : ℚ) + 1 := by
  have hdenN : 0 < h.den := h.den_pos
  have hden : (0:ℚ) < (h.den : ℚ) := by exact_mod_cast hdenN
  have hnum : ((h.num.toNat : ℕ) : ℚ) = (h.num : ℚ) := by
    exact_mod_cast congrArg (fun z : ℤ => (z : ℚ))
      (Int.toNat_of_nonneg (Rat.num_nonneg.mpr hh))
  conv_lhs => rw [← Rat.num_div_den h]
  rw [div_lt_iff₀ hden, ← hnum]
  have hnat : h.num.toNat < (h.num.toNat / h.den + 1) * h.den := by
    have h1 := Nat.div_add_mod h.num.toNat h.den
    have h2 := Nat.mod_lt h.num.toNat hdenN
    rcases Nat.div_add_mod h.num.toNat h.den with _
    calc h.num.toNat = h.den * (h.num.toNat / h.den) + h.num.toNat % h.den :=
          (Nat.div_add_mod _ _).symm
      _ < h.den * (h.num.toNat / h.den) + h.den := by omega
      _ = (h.num.toNat / h.den + 1) * h.den := by ring
  unfold ratFloorNat
  exact_mod_cast hnat

theorem ratFloorNat_mono {a b : ℚ} (ha : 0 ≤ a) (hab : a ≤ b) :
    ratFloorNat a ≤ ratFloorNat b := by
  by_contra hcon
  have hor : ratFloorNat b + 1 ≤ ratFloorNat a := by omega
  have h1 : (ratFloorNat a : ℚ) ≤ a := ratFloorNat_le ha
  have h2 : b < (ratFloorNat b : ℚ) + 1 := lt_ratFloorNat_add_one (ha.trans hab)
  have h3 : ((ratFloorNat b : ℚ) + 1) ≤ (ratFloorNat a : ℚ) := by exact_mod_cast hor
  linarith

theorem ratFloorNat_le_of_le {h : ℚ} {m : Nat} (hh : 0 ≤ h) (hm : h ≤ (m : ℚ)) :
    ratFloorNat h ≤ m := by
  have h1 : (ratFloorNat h : ℚ) ≤ (m : ℚ) := (ratFloorNat_le hh).trans hm
  exact_mod_cast h1

theorem sorted_getD_le {b : List ℚ} (hb : List.Sorted (· ≤ ·) b) {i j : Nat}
    (hij : i ≤ j) (hj : j < b.length) : b.getD i 0 ≤ b.getD j 0 := by
  have hi : i < b.length := lt_of_le_of_lt hij hj
  rw [List.getD_eq_getElem _ _ hi, List.getD_eq_getElem _ _ hj]
  rcases eq_or_lt_of_le hij with rfl | hlt
  · exact le_rfl
  · exact (List.pairwise_iff_getElem.mp hb) i j _ hj hlt

theorem interpAt_bounds {b : List ℚ} (hb : List.Sorted (· ≤ ·) b) (hne : b ≠ [])
    {h : ℚ} (h0 : 0 ≤ h) (hm : h ≤ ((b.length - 1 : ℕ) : ℚ)) :
    b.getD (ratFloorNat h) 0 ≤ interpAt b h ∧
    interpAt b h ≤ b.getD (min (ratFloorNat h + 1) (b.length - 1)) 0 := by
  have hlen : 0 < b.length := List.length_pos.mpr hne
  have hlo : ratFloorNat h ≤ b.length - 1 := ratFloorNat_le_of_le h0 hm
  have hhi : min (ratFloorNat h + 1) (b.length - 1) < b.length := by omega
  have hlohi : ratFloorNat h ≤ min (ratFloorNat h + 1) (b.length - 1) := by omega
  have hdiff : b.getD (ratFloorNat h) 0 ≤
      b.getD (min (ratFloorNat h + 1) (b.length - 1)) 0 :=
    sorted_getD_le hb hlohi hhi
  have hg0 : 0 ≤ h - (ratFloorNat h : ℚ) := by
    have := ratFloorNat_le h0
    linarith
  have hg1 : h - (ratFloorNat h : ℚ) ≤ 1 := by
    have := lt_ratFloorNat_add_one h0
    linarith
  unfold interpAt
  constructor
  · have := mul_nonneg hg0 (by linarith :
      (0:ℚ) ≤ b.getD (min (ratFloorNat h + 1) (b.length - 1)) 0 - b.getD (ratFloorNat h) 0)
    linarith
  · have := mul_le_of_le_one_left (by linarith :
      (0:ℚ) ≤ b.getD (min (ratFloorNat h + 1) (b.length - 1)) 0 - b.getD (ratFloorNat h) 0) hg1
    linarith

theorem interpAt_mono {b : List ℚ} (hb : List.Sorted (· ≤ ·) b) (hne : b ≠ [])
    {h1 h2 : ℚ} (h0 : 0 ≤ h1) (h12 : h1 ≤ h2) (hm : h2 ≤ ((b.length - 1 : ℕ) : ℚ)) :
    interpAt b h1 ≤ interpAt b h2 := by
  have hlen : 0 < b.length := List.length_pos.mpr hne
  have hm1 : h1 ≤ ((b.length - 1 : ℕ) : ℚ) := h12.trans hm
  have hfl : ratFloorNat h1 ≤ ratFloorNat h2 := ratFloorNat_mono h0 h12
  rcases eq_or_lt_of_le hfl with heq | hlt
  · have hlo : ratFloorNat h1 ≤ b.length - 1 := ratFloorNat_le_of_le h0 hm1
    have hhi : min (ratFloorNat h1 + 1) (b.length - 1) < b.length := by omega
    have hdiff : b.getD (ratFloorNat h1) 0 ≤
        b.getD (min (ratFloorNat h1 + 1) (b.length - 1)) 0 :=
      sorted_getD_le hb (by omega) hhi
    unfold interpAt
    rw [← heq]
    nlinarith [h12, hdiff]
  · have hbound1 := (interpAt_bounds hb hne h0 hm1).2
    have hbound2 := (interpAt_bounds hb hne (h0.trans h12) hm).1
    have hmid : b.getD (min (ratFloorNat h1 + 1) (b.length - 1)) 0 ≤
        b.getD (ratFloorNat h2) 0 := by
      apply sorted_getD_le hb
      · have : ratFloorNat h2 ≤ b.length - 1 :=
          ratFloorNat_le_of_le (h0.trans h12) hm
        omega
      · have : ratFloorNat h2 ≤ b.length - 1 :=
          ratFloorNat_le_of_le (h0.trans h12) hm
        omega
    linarith

theorem interpAt_const {b : List ℚ} {c : ℚ} (hc : ∀ x ∈ b, x = c) (hne : b ≠ [])
    {h : ℚ} (h0 : 0 ≤ h) (hm : h ≤ ((b.length - 1 : ℕ) : ℚ)) :
    interpAt b h = c := by
  have hlen : 0 < b.length := List.length_pos.mpr hne
  have hlo : ratFloorNat h < b.length := by
    have := ratFloorNat_le_of_le h0 hm
    omega
  have hhi : min (ratFloorNat h + 1) (b.length - 1) < b.length := by omega
  have hclo : b.getD (ratFloorNat h) 0 = c := by
    rw [List.getD_eq_getElem _ _ hlo]
    exact hc _ (List.getElem_mem hlo)
  have hchi : b.getD (min (ratFloorNat h + 1) (b.length - 1)) 0 = c := by
    rw [List.getD_eq_getElem _ _ hhi]
    exact hc _ (List.getElem_mem hhi)
  unfold interpAt
  rw [hclo, hchi]
  ring

theorem percentile_eq {xs : List ℚ} (q : ℚ) (hne : xs ≠ []) :
    percentile q xs =
      some (interpAt (List.insertionSort (· ≤ ·) xs)
        (q / 100 * ((xs.length : ℚ) - 1))) := by
  unfold percentile
  rw [if_neg hne]

theorem percentile_idx_nonneg {xs : List ℚ} (hne : xs ≠ []) {q : ℚ} (hq0 : 0 ≤ q) :
    0 ≤ q / 100 * ((xs.length : ℚ) - 1) := by
  have hn1 : 1 ≤ xs.length := List.length_pos.mpr hne
  have hn1Q : (1:ℚ) ≤ (xs.length : ℚ) := by exact_mod_cast hn1
  have : (0:ℚ) ≤ q / 100 := by linarith
  exact mul_nonneg this (by linarith)

theorem percentile_idx_le {xs : List ℚ} (hne : xs ≠ []) {q : ℚ} (hq1 : q ≤ 100)
    (hq0 : 0 ≤ q) :
    q / 100 * ((xs.length : ℚ) - 1) ≤ ((xs.length - 1 : ℕ) : ℚ) := by
  have hn1 : 1 ≤ xs.length := List.length_pos.mpr hne
  have hn1Q : (1:ℚ) ≤ (xs.length : ℚ) := by exact_mod_cast hn1
  have hcast : ((xs.length - 1 : ℕ) : ℚ) = (xs.length : ℚ) - 1 := by
    rw [Nat.cast_sub hn1]
    norm_num
  rw [hcast]
  have hq100 : q / 100 ≤ 1 := by linarith
  exact mul_le_of_le_one_left (by linarith) hq100

theorem percentile_le_percentile {xs : List ℚ} (hne : xs ≠ [])
    {q1 q2 v1 v2 : ℚ} (hq0 : 0 ≤ q1) (hq12 : q1 ≤ q2) (hq2 : q2 ≤ 100)
    (h1 : percentile q1 xs = some v1) (h2 : percentile q2 xs = some v2) :
    v1 ≤ v2 := by
  rw [percentile_eq q1 hne] at h1
  rw [percentile_eq q2 hne] at h2
  have hb : List.Sorted (· ≤ ·) (List.insertionSort (· ≤ ·) xs) :=
    List.sorted_insertionSort _ _
  have hlen : (List.insertionSort (· ≤ ·) xs).length = xs.length :=
    List.length_insertionSort _ _
  have hbne : List.insertionSort (· ≤ ·) xs ≠ [] := by
    apply List.ne_nil_of_length_pos
    rw [hlen]
    exact List.length_pos.mpr hne
  have hn1 : 1 ≤ xs.length := List.length_pos.mpr hne
  have hn1Q : (1:ℚ) ≤ (xs.length : ℚ) := by exact_mod_cast hn1
  have hmono := interpAt_mono hb hbne
    (percentile_idx_nonneg hne hq0)
    (by
      have : q1 / 100 ≤ q2 / 100 := by linarith
      exact mul_le_mul_of_nonneg_right this (by linarith))
    (by
      rw [hlen]
      exact percentile_idx_le hne hq2 (hq0.trans hq12))
  rw [← Option.some.inj h1, ← Option.some.inj h2]
  exact hmono

theorem percentile_const {xs : List ℚ} {c : ℚ} (hall : ∀ x ∈ xs, x = c)
    (hne : xs ≠ []) {q : ℚ} (hq0 : 0 ≤ q) (hq1 : q ≤ 100) :
    percentile q xs = some c := by
  rw [percentile_eq q hne]
  have hlen : (List.insertionSort (· ≤ ·) xs).length = xs.length :=
    List.length_insertionSort _ _
  have hbne : List.insertionSort (· ≤ ·) xs ≠ [] := by
    apply List.ne_nil_of_length_pos
    rw [hlen]
    exact List.length_pos.mpr hne
  have hballc : ∀ x ∈ List.insertionSort (· ≤ ·) xs, x = c := by
    intro x hx
    exact hall x ((List.mem_insertionSort _).mp hx)
  rw [interpAt_const hballc hbne (percentile_idx_nonneg hne hq0)
    (by rw [hlen]; exact percentile_idx_le hne hq1 hq0)]

/-- Claim C4: on a nonempty converted series the classifier takes the heat
threshold as the 95th percentile and the cold threshold as the 5th
percentile of the temperature values under linear interpolation between
order statistics, and a row is a heatwave day exactly when its temperature
strictly exceeds the heat threshold and a coldwave day exactly when it is
strictly below the cold threshold. -/
theorem C4_extreme_event_classifier (s : List (Date × ℚ)) (hs : s ≠ []) :
    heat_threshold s =
      some (interpAt (List.insertionSort (· ≤ ·) (s.map (fun p => p.2)))
        (95 / 100 * ((s.length : ℚ) - 1))) ∧
    cold_threshold s =
      some (interpAt (List.insertionSort (· ≤ ·) (s.map (fun p => p.2)))
        (5 / 100 * ((s.length : ℚ) - 1))) ∧
    (∀ p, p ∈ heatwave_days s ↔ p ∈ s ∧ ∃ h, heat_threshold s = some h ∧ h < p.2) ∧
    (∀ p, p ∈ coldwave_days s ↔ p ∈ s ∧ ∃ c, cold_threshold s = some c ∧ p.2 < c) := by
  have hmapne : s.map (fun p => p.2) ≠ [] := by
    simpa [List.map_eq_nil_iff] using hs
  have hlen : (s.map (fun p => p.2)).length = s.length := List.length_map _ _
  have hheat : heat_threshold s =
      some (interpAt (List.insertionSort (· ≤ ·) (s.map (fun p => p.2)))
        (95 / 100 * ((s.length : ℚ) - 1))) := by
    unfold heat_threshold
    rw [percentile_eq 95 hmapne, hlen]
  have hcold : cold_threshold s =
      some (interpAt (List.insertionSort (· ≤ ·) (s.map (fun p => p.2)))
        (5 / 100 * ((s.length : ℚ) - 1))) := by
    unfold cold_threshold
    rw [percentile_eq 5 hmapne, hlen]
  refine ⟨hheat, hcold, ?_, ?_⟩
  · intro p
    unfold heatwave_days
    rw [hheat]
    simp only [List.mem_filter, decide_eq_true_iff, Option.some.injEq]
    constructor
    · rintro ⟨hp, hlt⟩
      exact ⟨hp, _, rfl, hlt⟩
    · rintro ⟨hp, h0, heq, hlt⟩
      exact ⟨hp, heq ▸ hlt⟩
  · intro p
    unfold coldwave_days
    rw [hcold]
    simp only [List.mem_filter, decide_eq_true_iff, Option.some.injEq]
    constructor
    · rintro ⟨hp, hlt⟩
      exact ⟨hp, _, rfl, hlt⟩
    · rintro ⟨hp, c0, heq, hlt⟩
      exact ⟨hp, heq ▸ hlt⟩

/-- Witness for C4 at a concrete two-row series. -/
theorem C4_extreme_event_classifier_witness :
    (seriesW1 ≠ []) ∧
    ((Date.mk 2020 1 2, (2:ℚ)) ∈ heatwave_days seriesW1 ↔
      (Date.mk 2020 1 2, (2:ℚ)) ∈ seriesW1 ∧
      ∃ h, heat_threshold seriesW1 = some h ∧
        h < ((Date.mk 2020 1 2, (2:ℚ)) : Date × ℚ).2) :=
  ⟨by simp [seriesW1],
    (C4_extreme_event_classifier seriesW1
      (by simp [seriesW1])).2.2.1 (Date.mk 2020 1 2, (2:ℚ))⟩

/-- Claim C7: no row is both a heatwave day and a coldwave day, on a
nonempty series the heat threshold is at least the cold threshold, and on
a constant series both thresholds equal the common value and the strict
comparisons flag no day in either direction. -/
theorem C7_thresholds_exclusive (s : List (Date × ℚ)) :
    (∀ p, ¬(p ∈ heatwave_days s ∧ p ∈ coldwave_days s)) ∧
    (s ≠ [] → ∃ hth cth, heat_threshold s = some hth ∧ cold_threshold s = some cth ∧
      cth ≤ hth) ∧
    (∀ c : ℚ, s ≠ [] → (∀ p ∈ s, p.2 = c) →
      heat_threshold s = some c ∧ cold_threshold s = some c ∧
      heatwave_days s = [] ∧ coldwave_days s = []) := by
  have hthresh : s ≠ [] → ∃ hth cth, heat_threshold s = some hth ∧
      cold_threshold s = some cth ∧ cth ≤ hth := by
    intro hs
    have hmapne : s.map (fun p => p.2) ≠ [] := by
      simpa [List.map_eq_nil_iff] using hs
    have hheat := percentile_eq 95 hmapne
    have hcold := percentile_eq 5 hmapne
    refine ⟨_, _, hheat, hcold, ?_⟩
    exact percentile_le_percentile hmapne (by norm_num) (by norm_num) (by norm_num)
      hcold hheat
  refine ⟨?_, hthresh, ?_⟩
  · rintro p ⟨hph, hpc⟩
    cases hht : heat_threshold s with
    | none =>
      unfold heatwave_days at hph
      rw [hht] at hph
      exact absurd hph (List.not_mem_nil p)
    | some hth =>
      cases hct : cold_threshold s with
      | none =>
        unfold coldwave_days at hpc
        rw [hct] at hpc
        exact absurd hpc (List.not_mem_nil p)
      | some cth =>
        unfold heatwave_days at hph
        rw [hht] at hph
        unfold coldwave_days at hpc
        rw [hct] at hpc
        rcases List.mem_filter.mp hph with ⟨hps, hdh⟩
        rcases List.mem_filter.mp hpc with ⟨_, hdc⟩
        have hlth : hth < p.2 := of_decide_eq_true hdh
        have hltc : p.2 < cth := of_decide_eq_true hdc
        rcases hthresh (List.ne_nil_of_mem hps) with ⟨h2, c2, hh2, hc2, hcc⟩
        rw [hht] at hh2
        rw [hct] at hc2
        rw [← Option.some.inj hh2, ← Option.some.inj hc2] at hcc
        linarith
  · intro c hs hall
    have hmapne : s.map (fun p => p.2) ≠ [] := by
      simpa [List.map_eq_nil_iff] using hs
    have hallmap : ∀ x ∈ s.map (fun p => p.2), x = c := by
      intro x hx
      rcases List.mem_map.mp hx with ⟨p, hp, rfl⟩
      exact hall p hp
    have hheat : heat_threshold s = some c :=
      percentile_const hallmap hmapne (by norm_num) (by norm_num)
    have hcold : cold_threshold s = some c :=
      percentile_const hallmap hmapne (by norm_num) (by norm_num)
    refine ⟨hheat, hcold, ?_, ?_⟩
    · unfold heatwave_days
      rw [hheat, List.filter_eq_nil_iff]
      intro p hp
      rw [hall p hp]
      simp
    · unfold coldwave_days
      rw [hcold, List.filter_eq_nil_iff]
      intro p hp
      rw [hall p hp]
      simp

/-- Witness for C7 at a concrete constant two-row series. -/
theorem C7_thresholds_exclusive_witness :
    (seriesW2 ≠ []) ∧
    (∀ p ∈ seriesW2, p.2 = (4:ℚ)) ∧
    (heat_threshold seriesW2 = some 4 ∧
      cold_threshold seriesW2 = some 4 ∧
      heatwave_days seriesW2 = [] ∧
      coldwave_days seriesW2 = []) :=
  ⟨by simp [seriesW2], by with_unfolding_all decide,
    (C7_thresholds_exclusive seriesW2).2.2 4
      (by simp [seriesW2]) (by with_unfolding_all decide)⟩

/-! Lemmas for the unit-invariance claim: the Fahrenheit conversion is the
affine map x * 9/5 + 32 applied to every temperature before any statistic,
and every comparison the pipeline makes is preserved under it. -/

theorem sum_map_aff (l : List ℚ) :
    (l.map (fun x => x * 9 / 5 + 32)).sum = l.sum * 9 / 5 + 32 * l.length := by
  induction l with
  | nil => simp
  | cons x xs ih =>
    simp only [List.map_cons, List.sum_cons, List.length_cons, ih]
    push_cast
    ring

theorem meanD_map_aff {l : List ℚ} (hl : l ≠ []) :
    meanD (l.map (fun x => x * 9 / 5 + 32)) = meanD l * 9 / 5 + 32 := by
  unfold meanD
  rw [List.length_map, sum_map_aff]
  have hn : (l.length : ℚ) ≠ 0 := by
    have := List.length_pos.mpr hl
    exact Nat.cast_ne_zero.mpr (by omega)
  field_simp
  ring

theorem sum_map_scale95 (l : List ℚ) :
    (l.map (fun x => x * 9 / 5)).sum = l.sum * 9 / 5 := by
  induction l with
  | nil => simp
  | cons x xs ih =>
    simp only [List.map_cons, List.sum_cons, ih]
    ring

theorem meanD_map_scale95 (l : List ℚ) :
    meanD (l.map (fun x => x * 9 / 5)) = meanD l * 9 / 5 := by
  unfold meanD
  rw [List.length_map, sum_map_scale95]
  ring

theorem sum_sq_scale95 (l : List ℚ) (m : ℚ) :
    (l.map (fun d => (d * 9 / 5 - m * 9 / 5) ^ 2)).sum
      = (l.map (fun d => (d - m) ^ 2)).sum * 81 / 25 := by
  induction l with
  | nil => simp
  | cons x xs ih =>
    simp only [List.map_cons, List.sum_cons, ih]
    ring

theorem sampleVar_map_scale95 (l : List ℚ) :
    sampleVar (l.map (fun d => d * 9 / 5)) =
      Option.map (fun v => v * 81 / 25) (sampleVar l) := by
  unfold sampleVar
  rw [List.length_map]
  by_cases h2 : l.length < 2
  · rw [if_pos h2, if_pos h2]
    rfl
  · rw [if_neg h2, if_neg h2]
    simp only [Option.map_some']
    congr 1
    rw [List.map_map]
    have hcomp : (fun d => (d - meanD (l.map (fun x => x * 9 / 5))) ^ 2) ∘
        (fun d => d * 9 / 5) = fun d => (d * 9 / 5 - meanD l * 9 / 5) ^ 2 := by
      funext d
      simp only [Function.comp, meanD_map_scale95]
    rw [hcomp, sum_sq_scale95]
    ring

theorem rollingMean12_map_aff (ms : List ℚ) :
    rollingMean12 (ms.map (fun x => x * 9 / 5 + 32)) =
      (rollingMean12 ms).map (Option.map (fun x => x * 9 / 5 + 32)) := by
  unfold rollingMean12
  rw [List.length_map, List.map_map]
  apply List.map_congr_left
  intro i hi
  rw [List.mem_range] at hi
  simp only [Function.comp]
  by_cases h11 : 11 ≤ i
  · rw [if_pos h11, if_pos h11]
    rw [← List.map_take, ← List.map_drop]
    have hwne : (ms.take (i + 1)).drop (i - 11) ≠ [] := by
      apply List.ne_nil_of_length_pos
      rw [List.length_drop, List.length_take]
      omega
    rw [meanD_map_aff hwne]
    rfl
  · rw [if_neg h11, if_neg h11]
    rfl

theorem deviations_map_aff (ms : List ℚ) :
    deviations (ms.map (fun x => x * 9 / 5 + 32)) =
      (deviations ms).map (Option.map (fun d => d * 9 / 5)) := by
  unfold deviations
  rw [rollingMean12_map_aff, List.zipWith_map_left, List.zipWith_map_right,
    List.map_zipWith]
  have hfun : (fun a b => Option.map (fun y => a * 9 / 5 + 32 - y)
        (Option.map (fun x => x * 9 / 5 + 32) b)) =
      (fun x r => Option.map (fun d => d * 9 / 5)
        (Option.map (fun y => x - y) r) : ℚ → Option ℚ → Option ℚ) := by
    funext a b
    cases b with
    | none => rfl
    | some y =>
      simp only [Option.map_some', Option.some.injEq]
      ring
  rw [hfun]

theorem definedDevs_map_aff (ms : List ℚ) :
    definedDevs (ms.map (fun x => x * 9 / 5 + 32)) =
      (definedDevs ms).map (fun d => d * 9 / 5) := by
  unfold definedDevs
  rw [deviations_map_aff, List.reduceOption_map]

theorem getD_map_option (l : List (Option ℚ)) (g : ℚ → ℚ) (i : Nat) :
    (l.map (Option.map g)).getD i none = Option.map g (l.getD i none) := by
  rw [List.getD_eq_getElem?_getD, List.getD_eq_getElem?_getD, List.getElem?_map]
  cases l[i]? with
  | none => rfl
  | some o => rfl

theorem anomalyFlag_map_aff (ms : List ℚ) (i : Nat) :
    anomalyFlag (ms.map (fun x => x * 9 / 5 + 32)) i = anomalyFlag ms i := by
  unfold anomalyFlag
  rw [deviations_map_aff, getD_map_option, definedDevs_map_aff, sampleVar_map_scale95]
  cases hd : (deviations ms).getD i none with
  | none => rfl
  | some d =>
    cases hv : sampleVar (definedDevs ms) with
    | none => rfl
    | some v =>
      simp only [Option.map_some']
      show decide (4 * (v * 81 / 25) < (d * 9 / 5) ^ 2) = decide (4 * v < d ^ 2)
      rw [decide_eq_decide]
      constructor
      · intro h
        nlinarith [h]
      · intro h
        nlinarith [h]

theorem anomalyIdx_map_aff (ms : List ℚ) :
    anomalyIdx (ms.map (fun x => x * 9 / 5 + 32)) = anomalyIdx ms := by
  unfold anomalyIdx
  rw [List.length_map]
  exact List.filter_congr (fun i _ => anomalyFlag_map_aff ms i)

theorem mem_monthlyKeys {s : List (Date × ℚ)} {k : Nat × Nat} :
    k ∈ monthlyKeys s ↔ ∃ p ∈ s, ymOf p.1 = k := by
  unfold monthlyKeys
  rw [List.mem_insertionSort, List.mem_dedup, List.mem_map]

theorem monthTemps_ne_nil_of_mem {s : List (Date × ℚ)} {k : Nat × Nat}
    (hk : k ∈ monthlyKeys s) : monthTemps s k ≠ [] := by
  rcases mem_monthlyKeys.mp hk with ⟨p, hp, hpk⟩
  have hpm : p.2 ∈ monthTemps s k := by
    unfold monthTemps
    exact List.mem_map.mpr ⟨p, List.mem_filter.mpr ⟨hp, by simp [hpk]⟩, rfl⟩
  exact List.ne_nil_of_mem hpm

theorem monthTemps_convert (u : TempUnit) (s : List (Date × ℚ)) (k : Nat × Nat) :
    monthTemps (convertSeries u s) k = (monthTemps s k).map (convert u) := by
  unfold monthTemps convertSeries
  rw [List.filter_map, List.map_map, List.map_map]
  rfl

theorem convertSeries_celsius (s : List (Date × ℚ)) :
    convertSeries TempUnit.celsius s = s := by
  unfold convertSeries
  exact List.map_id s

theorem monthlyMeans_convert_fah (s : List (Date × ℚ)) :
    monthlyMeans (convertSeries TempUnit.fahrenheit s) =
      (monthlyMeans s).map (fun x => x * 9 / 5 + 32) := by
  unfold monthlyMeans monthlyTable
  rw [monthlyKeys_convert, List.map_map, List.map_map, List.map_map]
  apply List.map_congr_left
  intro k hk
  simp only [Function.comp]
  rw [monthTemps_convert]
  rw [show (monthTemps s k).map (convert TempUnit.fahrenheit) =
    (monthTemps s k).map (fun x => x * 9 / 5 + 32) from rfl]
  exact meanD_map_aff (monthTemps_ne_nil_of_mem hk)

theorem insertionSort_map_aff (xs : List ℚ) :
    List.insertionSort (· ≤ ·) (xs.map (fun x => x * 9 / 5 + 32))
      = (List.insertionSort (· ≤ ·) xs).map (fun x => x * 9 / 5 + 32) := by
  have hperm : (List.insertionSort (· ≤ ·) (xs.map (fun x => x * 9 / 5 + 32))).Perm
      ((List.insertionSort (· ≤ ·) xs).map (fun x => x * 9 / 5 + 32)) :=
    (List.perm_insertionSort _ _).trans
      (((List.perm_insertionSort _ xs).symm).map _)
  have hs1 : List.Sorted (· ≤ ·)
      (List.insertionSort (· ≤ ·) (xs.map (fun x => x * 9 / 5 + 32))) :=
    List.sorted_insertionSort _ _
  have hs2 : List.Sorted (· ≤ ·)
      ((List.insertionSort (· ≤ ·) xs).map (fun x => x * 9 / 5 + 32)) :=
    List.Pairwise.map _ (fun a b hab => by
      show a * 9 / 5 + 32 ≤ b * 9 / 5 + 32
      linarith)
      (List.sorted_insertionSort _ xs)
  exact List.eq_of_perm_of_sorted hperm hs1 hs2

theorem interpAt_map_aff {b : List ℚ} (hne : b ≠ []) {h : ℚ} (h0 : 0 ≤ h)
    (hm : h ≤ ((b.length - 1 : ℕ) : ℚ)) :
    interpAt (b.map (fun x => x * 9 / 5 + 32)) h = interpAt b h * 9 / 5 + 32 := by
  have hlen : (b.map (fun x => x * 9 / 5 + 32)).length = b.length := List.length_map _ _
  have hpos : 0 < b.length := List.length_pos.mpr hne
  have hlo : ratFloorNat h < b.length := by
    have := ratFloorNat_le_of_le h0 hm
    omega
  have hhi : min (ratFloorNat h + 1) (b.length - 1) < b.length := by omega
  have h1 : (b.map (fun x => x * 9 / 5 + 32)).getD (ratFloorNat h) 0 =
      b.getD (ratFloorNat h) 0 * 9 / 5 + 32 := by
    rw [List.getD_eq_getElem _ _ (by rw [hlen]; exact hlo), List.getElem_map,
      List.getD_eq_getElem _ _ hlo]
  have h2 : (b.map (fun x => x * 9 / 5 + 32)).getD
      (min (ratFloorNat h + 1) (b.length - 1)) 0 =
      b.getD (min (ratFloorNat h + 1) (b.length - 1)) 0 * 9 / 5 + 32 := by
    rw [List.getD_eq_getElem _ _ (by rw [hlen]; exact hhi), List.getElem_map,
      List.getD_eq_getElem _ _ hhi]
  unfold interpAt
  rw [hlen, h1, h2]
  ring

theorem percentile_map_aff {xs : List ℚ} (hne : xs ≠ []) {q : ℚ} (hq0 : 0 ≤ q)
    (hq1 : q ≤ 100) :
    percentile q (xs.map (fun x => x * 9 / 5 + 32)) =
      Option.map (fun x => x * 9 / 5 + 32) (percentile q xs) := by
  have hmapne : xs.map (fun x => x * 9 / 5 + 32) ≠ [] := by
    simpa [List.map_eq_nil_iff] using hne
  rw [percentile_eq q hmapne, percentile_eq q hne]
  simp only [Option.map_some', Option.some.injEq]
  rw [List.length_map, insertionSort_map_aff]
  have hslen : (List.insertionSort (· ≤ ·) xs).length = xs.length :=
    List.length_insertionSort _ _
  have hsne : List.insertionSort (· ≤ ·) xs ≠ [] := by
    apply List.ne_nil_of_length_pos
    rw [hslen]
    exact List.length_pos.mpr hne
  exact interpAt_map_aff hsne (percentile_idx_nonneg hne hq0)
    (by rw [hslen]; exact percentile_idx_le hne hq1 hq0)

theorem temps_convert (u : TempUnit) (s : List (Date × ℚ)) :
    (convertSeries u s).map (fun p => p.2) = (s.map (fun p => p.2)).map (convert u) := by
  unfold convertSeries
  rw [List.map_map, List.map_map]
  rfl

theorem heatwave_days_convert_fah (s : List (Date × ℚ)) :
    (heatwave_days (convertSeries TempUnit.fahrenheit s)).map (fun p => p.1)
      = (heatwave_days s).map (fun p => p.1) := by
  by_cases hs : s = []
  · subst hs
    rfl
  · have hmapne : s.map (fun p => p.2) ≠ [] := by
      simpa [List.map_eq_nil_iff] using hs
    unfold heatwave_days heat_threshold
    rw [temps_convert,
      show List.map (convert TempUnit.fahrenheit) =
        List.map (fun x : ℚ => x * 9 / 5 + 32) from rfl,
      percentile_map_aff hmapne (by norm_num) (by norm_num)]
    cases hp : percentile 95 (s.map fun p => p.2) with
    | none => rfl
    | some H =>
      simp only [Option.map_some']
      unfold convertSeries
      rw [List.filter_map]
      have hfc : s.filter ((fun p : Date × ℚ => decide ((H * 9 / 5 + 32 : ℚ) < p.2)) ∘
          (fun p : Date × ℚ => (p.1, convert TempUnit.fahrenheit p.2))) =
          s.filter (fun p => decide (H < p.2)) := by
        apply List.filter_congr
        intro p hp2
        simp only [Function.comp]
        rw [decide_eq_decide]
        show H * 9 / 5 + 32 < convert TempUnit.fahrenheit p.2 ↔ H < p.2
        rw [show convert TempUnit.fahrenheit p.2 = p.2 * 9 / 5 + 32 from rfl]
        constructor
        · intro hlt
          linarith
        · intro hlt
          linarith
      rw [hfc, List.map_map]
      rfl

theorem coldwave_days_convert_fah (s : List (Date × ℚ)) :
    (coldwave_days (convertSeries TempUnit.fahrenheit s)).map (fun p => p.1)
      = (coldwave_days s).map (fun p => p.1) := by
  by_cases hs : s = []
  · subst hs
    rfl
  · have hmapne : s.map (fun p => p.2) ≠ [] := by
      simpa [List.map_eq_nil_iff] using hs
    unfold coldwave_days cold_threshold
    rw [temps_convert,
      show List.map (convert TempUnit.fahrenheit) =
        List.map (fun x : ℚ => x * 9 / 5 + 32) from rfl,
      percentile_map_aff hmapne (by norm_num) (by norm_num)]
    cases hp : percentile 5 (s.map fun p => p.2) with
    | none => rfl
    | some C =>
      simp only [Option.map_some']
      unfold convertSeries
      rw [List.filter_map]
      have hfc : s.filter ((fun p : Date × ℚ => decide (p.2 < (C * 9 / 5 + 32 : ℚ))) ∘
          (fun p : Date × ℚ => (p.1, convert TempUnit.fahrenheit p.2))) =
          s.filter (fun p => decide (p.2 < C)) := by
        apply List.filter_congr
        intro p hp2
        simp only [Function.comp]
        rw [decide_eq_decide]
        show convert TempUnit.fahrenheit p.2 < C * 9 / 5 + 32 ↔ p.2 < C
        rw [show convert TempUnit.fahrenheit p.2 = p.2 * 9 / 5 + 32 from rfl]
        constructor
        · intro hlt
          linarith
        · intro hlt
          linarith
      rw [hfc, List.map_map]
      rfl

/-- Claim C10: over exact rational arithmetic the unit selection does not
change which months are flagged as anomalies nor which days are classified
as heatwave or coldwave days: the Fahrenheit conversion is affine with
positive slope, so it scales every deviation and every threshold together
and preserves every strict comparison of the pipeline. -/
theorem C10_unit_invariance (s : List (Date × ℚ)) :
    anomalousMonths TempUnit.fahrenheit s = anomalousMonths TempUnit.celsius s ∧
    (heatwave_days (convertSeries TempUnit.fahrenheit s)).map (fun p => p.1)
      = (heatwave_days (convertSeries TempUnit.celsius s)).map (fun p => p.1) ∧
    (coldwave_days (convertSeries TempUnit.fahrenheit s)).map (fun p => p.1)
      = (coldwave_days (convertSeries TempUnit.celsius s)).map (fun p => p.1) := by
  refine ⟨?_, ?_, ?_⟩
  · unfold anomalousMonths
    rw [monthlyKeys_convert, monthlyKeys_convert, monthlyMeans_convert_fah,
      anomalyIdx_map_aff, convertSeries_celsius]
  · rw [heatwave_days_convert_fah, convertSeries_celsius]
  · rw [coldwave_days_convert_fah, convertSeries_celsius]

end Weather
